import Mathlib

/-!
Verification of the Erlang-C fleet-optimization demo's numeric core.

The JavaScript source in `src/utils/erlangC.js` and the optimizer loops in
`src/components/FleetVisualizations.js` / the `ServerOptimizer` component are
embedded shallowly: JavaScript numbers are modelled by exact rationals `ℚ`
(IEEE-754 `Infinity` is modelled by `none` in `Option ℚ` where a function can
produce it), worker/server counts by `ℤ`, and every function is a total
computable Lean definition mirroring the source line by line.
-/

/-- Embedding of `factorial` from `src/utils/erlangC.js`: `result = 1` then
`result *= i` for `i = 2 .. n` (the `n === 0 || n === 1` early return yields
the same empty product). -/
def factorial (n : ℕ) : ℕ :=
  (List.range' 2 (n - 1)).foldl (fun result i => result * i) 1

/-- The iterative `factorial` of the source agrees with the mathematical
factorial. -/
theorem factorial_eq (n : ℕ) : factorial n = Nat.factorial n := by
  have key : ∀ m : ℕ, (List.range' 2 m).foldl (fun result i => result * i) 1 =
      Nat.factorial (m + 1) := by
    intro m
    induction m with
    | zero => simp [Nat.factorial]
    | succ k ih =>
        rw [List.range'_concat, List.foldl_append]
        simp only [List.foldl_cons, List.foldl_nil, ih]
        rw [Nat.factorial_succ (k + 1)]
        ring
  match n with
  | 0 => rfl
  | 1 => rfl
  | m + 2 =>
      exact key (m + 1)

/-- One summand `A^k / k!` of the Erlang-C partial sum, exactly as the source
computes it (`Math.pow(A, k) / factorial(k)`). -/
def erlangTerm (A : ℚ) (k : ℕ) : ℚ := A ^ k / (factorial k : ℚ)

/-- The loop `sum += Math.pow(A, k) / factorial(k)` for `k = 0 .. n-1` from
`erlangC` in `src/utils/erlangC.js`. -/
def erlangSum (A : ℚ) (n : ℕ) : ℚ := ∑ k ∈ Finset.range n, erlangTerm A k

/-- Embedding of `erlangC(N, A)` from `src/utils/erlangC.js`:
guard `N <= 0 || A < 0` returns 0, guard `A >= N` returns 1, otherwise the
quotient `numerator / (numerator + (1 - A/N) * sum)` with
`numerator = A^N / N!`. -/
def erlangC (N : ℤ) (A : ℚ) : ℚ :=
  if N ≤ 0 ∨ A < 0 then 0
  else if (N : ℚ) ≤ A then 1
  else
    erlangTerm A N.toNat /
      (erlangTerm A N.toNat + (1 - A / (N : ℚ)) * erlangSum A N.toNat)

/-- Embedding of `averageWaitingTime(N, A, serviceTime)`; the JavaScript
`Infinity` returned when `N <= A` is modelled by `none`. -/
def averageWaitingTime (N : ℤ) (A serviceTime : ℚ) : Option ℚ :=
  if (N : ℚ) ≤ A then none
  else some (erlangC N A * serviceTime / ((N : ℚ) - A))

/-- Embedding of `averageQueueLength(N, A)`; `Infinity` is `none`. -/
def averageQueueLength (N : ℤ) (A : ℚ) : Option ℚ :=
  if (N : ℚ) ≤ A then none
  else some (A * erlangC N A / ((N : ℚ) - A))

/-- Embedding of `calculateTrafficIntensity(arrivalRate, serviceTime)`. -/
def calculateTrafficIntensity (arrivalRate serviceTime : ℚ) : ℚ :=
  arrivalRate * serviceTime

/-- Embedding of `calculateUtilization(N, A)`:
`N === 0` yields 0, otherwise `Math.min(100, (A / N) * 100)`. -/
def calculateUtilization (N : ℤ) (A : ℚ) : ℚ :=
  if N = 0 then 0 else min 100 (A / (N : ℚ) * 100)

/-- The JavaScript comparison `waitTime <= maxWaitTime` where `waitTime` may be
`Infinity` (`none`): `Infinity <= b` is false for every finite `b`. -/
def jsLe (w : Option ℚ) (b : ℚ) : Bool :=
  match w with
  | none => false
  | some x => decide (x ≤ b)

/-- Order on `Option ℚ` with `none` playing the role of `+Infinity`. -/
def waitLE (x y : Option ℚ) : Prop :=
  match x, y with
  | _, none => True
  | none, some _ => False
  | some a, some b => a ≤ b

instance (x y : Option ℚ) : Decidable (waitLE x y) := by
  cases x <;> cases y <;> simp only [waitLE] <;> infer_instance

/- ### Basic positivity and bound lemmas for the engine -/

theorem factorial_pos (n : ℕ) : 0 < factorial n := by
  rw [factorial_eq]; exact Nat.factorial_pos n

theorem erlangTerm_nonneg {A : ℚ} (hA : 0 ≤ A) (k : ℕ) : 0 ≤ erlangTerm A k :=
  div_nonneg (pow_nonneg hA k) (by exact_mod_cast (factorial_pos k).le)

theorem erlangTerm_pos {A : ℚ} (hA : 0 < A) (k : ℕ) : 0 < erlangTerm A k :=
  div_pos (pow_pos hA k) (by exact_mod_cast factorial_pos k)

theorem erlangSum_nonneg {A : ℚ} (hA : 0 ≤ A) (n : ℕ) : 0 ≤ erlangSum A n :=
  Finset.sum_nonneg fun k _ => erlangTerm_nonneg hA k

theorem one_le_erlangSum {A : ℚ} (hA : 0 ≤ A) {n : ℕ} (hn : 1 ≤ n) :
    1 ≤ erlangSum A n := by
  have h0 : erlangTerm A 0 = 1 := by
    simp [erlangTerm, factorial]
  calc (1 : ℚ) = erlangTerm A 0 := h0.symm
    _ ≤ ∑ k ∈ Finset.range n, erlangTerm A k :=
        Finset.single_le_sum (fun k _ => erlangTerm_nonneg hA k)
          (Finset.mem_range.mpr hn)

theorem erlangSum_succ (A : ℚ) (n : ℕ) :
    erlangSum A (n + 1) = erlangSum A n + erlangTerm A n :=
  Finset.sum_range_succ _ n

theorem erlangTerm_succ_mul (A : ℚ) (n : ℕ) :
    erlangTerm A (n + 1) * ((n : ℚ) + 1) = erlangTerm A n * A := by
  have hfac : (factorial (n + 1) : ℚ) = (factorial n : ℚ) * ((n : ℚ) + 1) := by
    rw [factorial_eq, factorial_eq, Nat.factorial_succ]
    push_cast
    ring
  have hne : (factorial n : ℚ) ≠ 0 := by
    exact_mod_cast (factorial_pos n).ne'
  have hne1 : ((n : ℚ) + 1) ≠ 0 := by positivity
  field_simp [erlangTerm, hfac]
  ring

/- ### Case analysis for `erlangC` -/

theorem erlangC_guard {N : ℤ} {A : ℚ} (h : N ≤ 0 ∨ A < 0) : erlangC N A = 0 := by
  simp [erlangC, h]

theorem erlangC_saturated {N : ℤ} {A : ℚ} (hN : 0 < N) (hA : 0 ≤ A)
    (h : (N : ℚ) ≤ A) : erlangC N A = 1 := by
  have hg : ¬(N ≤ 0 ∨ A < 0) := by push_neg; exact ⟨hN, hA⟩
  simp [erlangC, hg, h]

theorem erlangC_stable {N : ℤ} {A : ℚ} (hN : 0 < N) (hA : 0 ≤ A)
    (h : A < (N : ℚ)) :
    erlangC N A = erlangTerm A N.toNat /
      (erlangTerm A N.toNat + (1 - A / (N : ℚ)) * erlangSum A N.toNat) := by
  have hg : ¬(N ≤ 0 ∨ A < 0) := by push_neg; exact ⟨hN, hA⟩
  simp [erlangC, hg, not_le.mpr h]

theorem toNat_cast_eq {N : ℤ} (hN : 0 < N) : ((N.toNat : ℚ)) = (N : ℚ) := by
  exact_mod_cast congrArg (Int.cast : ℤ → ℚ) (Int.toNat_of_nonneg hN.le)

theorem erlangC_den_pos {N : ℤ} {A : ℚ} (hN : 0 < N) (hA : 0 ≤ A)
    (h : A < (N : ℚ)) :
    0 < erlangTerm A N.toNat + (1 - A / (N : ℚ)) * erlangSum A N.toNat := by
  have hNq : (0 : ℚ) < (N : ℚ) := by exact_mod_cast hN
  have hc : 0 < 1 - A / (N : ℚ) := by
    have : A / (N : ℚ) < 1 := (div_lt_one hNq).mpr h
    linarith
  have hn1 : 1 ≤ N.toNat := by omega
  have hS : 1 ≤ erlangSum A N.toNat := one_le_erlangSum hA hn1
  have hT : 0 ≤ erlangTerm A N.toNat := erlangTerm_nonneg hA N.toNat
  nlinarith

theorem erlangC_nonneg (N : ℤ) (A : ℚ) : 0 ≤ erlangC N A := by
  by_cases hg : N ≤ 0 ∨ A < 0
  · rw [erlangC_guard hg]
  · push_neg at hg
    obtain ⟨hN, hA⟩ := hg
    by_cases hsat : (N : ℚ) ≤ A
    · rw [erlangC_saturated hN hA hsat]; norm_num
    · push_neg at hsat
      rw [erlangC_stable hN hA hsat]
      exact div_nonneg (erlangTerm_nonneg hA _) (erlangC_den_pos hN hA hsat).le

theorem erlangC_le_one (N : ℤ) (A : ℚ) : erlangC N A ≤ 1 := by
  by_cases hg : N ≤ 0 ∨ A < 0
  · rw [erlangC_guard hg]; norm_num
  · push_neg at hg
    obtain ⟨hN, hA⟩ := hg
    by_cases hsat : (N : ℚ) ≤ A
    · rw [erlangC_saturated hN hA hsat]
    · push_neg at hsat
      rw [erlangC_stable hN hA hsat]
      rw [div_le_one (erlangC_den_pos hN hA hsat)]
      have hNq : (0 : ℚ) < (N : ℚ) := by exact_mod_cast hN
      have hc : 0 ≤ 1 - A / (N : ℚ) := by
        have : A / (N : ℚ) < 1 := (div_lt_one hNq).mpr hsat
        linarith
      nlinarith [erlangSum_nonneg hA N.toNat]

/-- The classical Erlang-C expression
`(A^N/N!) / (A^N/N! + (1 - A/N) * Σ_{k<N} A^k/k!)` stated with the
mathematical factorial, used as the specification-side reference value. -/
def erlangCspec (N : ℤ) (A : ℚ) : ℚ :=
  A ^ N.toNat / (Nat.factorial N.toNat : ℚ) /
    (A ^ N.toNat / (Nat.factorial N.toNat : ℚ) +
      (1 - A / (N : ℚ)) * ∑ k ∈ Finset.range N.toNat, A ^ k / (Nat.factorial k : ℚ))

/-- **C1**: `erlangC(N, A)` returns 0 when `N ≤ 0` or `A < 0`, returns 1 when
`A ≥ N` (for positive `N`, nonnegative `A`), and in the stable case
`0 < A < N` returns exactly the classical Erlang-C value, which lies in
`[0, 1]`. -/
theorem C1_erlangC_contract (N : ℤ) (A : ℚ) :
    (N ≤ 0 ∨ A < 0 → erlangC N A = 0) ∧
    (0 < N → 0 ≤ A → (N : ℚ) ≤ A → erlangC N A = 1) ∧
    (0 < A → A < (N : ℚ) → erlangC N A = erlangCspec N A ∧
      0 ≤ erlangC N A ∧ erlangC N A ≤ 1) := by
  refine ⟨fun h => erlangC_guard h, fun hN hA h => erlangC_saturated hN hA h, ?_⟩
  intro hA h
  have hN : 0 < N := by
    by_contra hle
    push_neg at hle
    have : (N : ℚ) ≤ 0 := by exact_mod_cast hle
    linarith
  refine ⟨?_, erlangC_nonneg N A, erlangC_le_one N A⟩
  rw [erlangC_stable hN hA.le h]
  simp only [erlangCspec, erlangTerm, erlangSum, factorial_eq]

/-- **C7**: for every worker count and service time, `averageWaitingTime`
returns `+∞` (modelled `none`) exactly when `N ≤ A`, and otherwise
`erlangC(N,A) * serviceTime / (N - A)`; `averageQueueLength` returns `+∞`
exactly when `N ≤ A`, and otherwise `A * erlangC(N,A) / (N - A)`; both are
total functions (never an exception). -/
theorem C7_unstable_infinity (N : ℤ) (A serviceTime : ℚ) :
    (averageWaitingTime N A serviceTime = none ↔ (N : ℚ) ≤ A) ∧
    (averageQueueLength N A = none ↔ (N : ℚ) ≤ A) ∧
    (A < (N : ℚ) → averageWaitingTime N A serviceTime =
      some (erlangC N A * serviceTime / ((N : ℚ) - A))) ∧
    (A < (N : ℚ) → averageQueueLength N A =
      some (A * erlangC N A / ((N : ℚ) - A))) := by
  refine ⟨⟨fun hnone => ?_, fun h => by simp [averageWaitingTime, h]⟩,
    ⟨fun hnone => ?_, fun h => by simp [averageQueueLength, h]⟩,
    fun h => by simp [averageWaitingTime, not_le.mpr h],
    fun h => by simp [averageQueueLength, not_le.mpr h]⟩
  · by_contra hc
    push_neg at hc
    simp [averageWaitingTime, not_le.mpr hc] at hnone
  · by_contra hc
    push_neg at hc
    simp [averageQueueLength, not_le.mpr hc] at hnone

set_option maxRecDepth 20000 in
/-- **C2** (supporting fact for the factorial-overflow defect): the `factorial`
actually used by `erlangC` exceeds `2^1024` (hence the IEEE-754 double range,
whose largest finite value is below `2^1024`) already at `n = 171`, while
`170!` and hence all earlier loop iterates still fit; moreover at the failing
input `N = 171`, `A = 170` the power `Math.pow(A, N) = 170^171` overflows as
well, so the double-precision evaluation of `numerator = A^N / N!` is
`Infinity / Infinity = NaN`. -/
theorem C2_factorial_overflow :
    2 ^ 1024 < factorial 171 ∧ factorial 170 < 2 ^ 1024 ∧
      2 ^ 1024 < 170 ^ 171 := by
  refine ⟨?_, ?_, ?_⟩
  · rw [factorial_eq]
    decide
  · rw [factorial_eq]
    decide
  · decide

/- ### Monotonicity of `erlangC` and `averageWaitingTime` in the worker count -/

/-- The ratio `(n - A) * S_n / (n * T_n)`; the stable-case Erlang-C value
equals `1 / (1 + g)`, so monotonicity of `g` in `n` gives antitonicity of
`erlangC`. -/
def erlangRatio (A : ℚ) (n : ℕ) : ℚ :=
  ((n : ℚ) - A) * erlangSum A n / ((n : ℚ) * erlangTerm A n)

theorem erlangRatio_nonneg {A : ℚ} {n : ℕ} (hA : 0 < A) (hAn : A ≤ (n : ℚ)) :
    0 ≤ erlangRatio A n := by
  have hn : (0 : ℚ) < (n : ℚ) := lt_of_lt_of_le hA hAn
  exact div_nonneg
    (mul_nonneg (by linarith) (erlangSum_nonneg hA.le n))
    (mul_nonneg hn.le (erlangTerm_nonneg hA.le n))

theorem erlangRatio_step {A : ℚ} {n : ℕ} (hA : 0 < A) (hAn : A ≤ (n : ℚ)) :
    erlangRatio A n ≤ erlangRatio A (n + 1) := by
  have hn : (0 : ℚ) < (n : ℚ) := lt_of_lt_of_le hA hAn
  have hT : 0 < erlangTerm A n := erlangTerm_pos hA n
  have hT1 : 0 < erlangTerm A (n + 1) := erlangTerm_pos hA (n + 1)
  have hS : 0 ≤ erlangSum A n := erlangSum_nonneg hA.le n
  have hd1 : 0 < (n : ℚ) * erlangTerm A n := mul_pos hn hT
  have hd2 : 0 < ((n : ℚ) + 1) * erlangTerm A (n + 1) :=
    mul_pos (by linarith) hT1
  rw [erlangRatio, erlangRatio, erlangSum_succ]
  push_cast
  rw [div_le_div_iff hd1 hd2]
  have hcore : ((n : ℚ) - A) * erlangSum A n * A ≤
      ((n : ℚ) + 1 - A) * (erlangSum A n + erlangTerm A n) * (n : ℚ) := by
    have h1 : ((n : ℚ) - A) * erlangSum A n * A ≤
        ((n : ℚ) - A) * erlangSum A n * (n : ℚ) :=
      mul_le_mul_of_nonneg_left hAn (mul_nonneg (by linarith) hS)
    have h2 : ((n : ℚ) - A) * erlangSum A n * (n : ℚ) ≤
        ((n : ℚ) + 1 - A) * erlangSum A n * (n : ℚ) := by
      have : ((n : ℚ) - A) * erlangSum A n ≤
          ((n : ℚ) + 1 - A) * erlangSum A n :=
        mul_le_mul_of_nonneg_right (by linarith) hS
      exact mul_le_mul_of_nonneg_right this hn.le
    have h3 : ((n : ℚ) + 1 - A) * erlangSum A n * (n : ℚ) ≤
        ((n : ℚ) + 1 - A) * (erlangSum A n + erlangTerm A n) * (n : ℚ) := by
      have : ((n : ℚ) + 1 - A) * erlangSum A n ≤
          ((n : ℚ) + 1 - A) * (erlangSum A n + erlangTerm A n) :=
        mul_le_mul_of_nonneg_left (by linarith) (by linarith)
      exact mul_le_mul_of_nonneg_right this hn.le
    linarith
  have hmul := mul_le_mul_of_nonneg_right hcore hT.le
  have hTs := erlangTerm_succ_mul A n
  have heq : ((n : ℚ) - A) * erlangSum A n * (((n : ℚ) + 1) * erlangTerm A (n + 1)) =
      ((n : ℚ) - A) * erlangSum A n * A * erlangTerm A n := by
    linear_combination (((n : ℚ) - A) * erlangSum A n) * hTs
  rw [heq]
  linarith [hmul]

theorem erlangRatio_mono {A : ℚ} {m n : ℕ} (hA : 0 < A) (hAm : A ≤ (m : ℚ))
    (hmn : m ≤ n) : erlangRatio A m ≤ erlangRatio A n := by
  induction n, hmn using Nat.le_induction with
  | base => exact le_refl _
  | succ k hk ih =>
      refine le_trans ih (erlangRatio_step hA ?_)
      have : (m : ℚ) ≤ (k : ℚ) := by exact_mod_cast hk
      linarith

theorem erlangC_eq_one_div {N : ℤ} {A : ℚ} (hN : 0 < N) (hA : 0 < A)
    (h : A < (N : ℚ)) :
    erlangC N A = 1 / (1 + erlangRatio A N.toNat) := by
  have hcast : ((N.toNat : ℚ)) = (N : ℚ) := toNat_cast_eq hN
  have hNq : (0 : ℚ) < (N : ℚ) := by exact_mod_cast hN
  have hT : 0 < erlangTerm A N.toNat := erlangTerm_pos hA N.toNat
  have hden := erlangC_den_pos hN hA.le h
  have hg : 0 ≤ erlangRatio A N.toNat := by
    apply erlangRatio_nonneg hA
    rw [hcast]; exact h.le
  have hden2 : (0 : ℚ) < 1 + erlangRatio A N.toNat := by linarith
  rw [erlangC_stable hN hA.le h]
  rw [div_eq_div_iff hden.ne' hden2.ne']
  rw [erlangRatio, hcast]
  field_simp
  ring

/-- For fixed `A ≥ 0` and positive integer worker counts `N1 ≤ N2`, the delay
probability and the expected wait are non-increasing in the worker count. -/
theorem erlangC_wait_antitone (A t : ℚ) (N1 N2 : ℤ) (hA : 0 ≤ A)
    (h1 : 0 < N1) (h12 : N1 ≤ N2) (ht : 0 < t) :
    erlangC N2 A ≤ erlangC N1 A ∧
    waitLE (averageWaitingTime N2 A t) (averageWaitingTime N1 A t) := by
  have h2 : 0 < N2 := lt_of_lt_of_le h1 h12
  have h12q : (N1 : ℚ) ≤ (N2 : ℚ) := by exact_mod_cast h12
  have hC : erlangC N2 A ≤ erlangC N1 A := by
    rcases eq_or_lt_of_le hA with hA0 | hApos
    · have hz : ∀ M : ℤ, 0 < M → erlangC M 0 = 0 := by
        intro M hM
        have hMq : (0 : ℚ) < (M : ℚ) := by exact_mod_cast hM
        rw [erlangC_stable hM le_rfl hMq]
        have hMn : M.toNat ≠ 0 := by omega
        simp [erlangTerm, zero_pow hMn]
      rw [← hA0, hz N1 h1, hz N2 h2]
    · by_cases hs2 : (N2 : ℚ) ≤ A
      · rw [erlangC_saturated h2 hA hs2,
          erlangC_saturated h1 hA (le_trans h12q hs2)]
      · push_neg at hs2
        by_cases hs1 : (N1 : ℚ) ≤ A
        · rw [erlangC_saturated h1 hA hs1]
          exact erlangC_le_one N2 A
        · push_neg at hs1
          rw [erlangC_eq_one_div h1 hApos hs1, erlangC_eq_one_div h2 hApos hs2]
          have hg1 : 0 ≤ erlangRatio A N1.toNat := by
            apply erlangRatio_nonneg hApos
            rw [toNat_cast_eq h1]; exact hs1.le
          apply one_div_le_one_div_of_le (by linarith)
          have hmono : erlangRatio A N1.toNat ≤ erlangRatio A N2.toNat := by
            apply erlangRatio_mono hApos
            · rw [toNat_cast_eq h1]; exact hs1.le
            · omega
          linarith
  refine ⟨hC, ?_⟩
  by_cases hs2 : (N2 : ℚ) ≤ A
  · have hs1 : (N1 : ℚ) ≤ A := le_trans h12q hs2
    simp [averageWaitingTime, hs1, hs2, waitLE]
  · push_neg at hs2
    by_cases hs1 : (N1 : ℚ) ≤ A
    · simp [averageWaitingTime, hs1, not_le.mpr hs2, waitLE]
    · push_neg at hs1
      simp only [averageWaitingTime, not_le.mpr hs1, not_le.mpr hs2, if_false,
        waitLE]
      apply div_le_div (mul_nonneg (erlangC_nonneg N1 A) ht.le)
        (mul_le_mul_of_nonneg_right hC ht.le) (by linarith) (by linarith)

/- ### `findMinWorkers`: bounded binary search -/

/-- Embedding of the `while (minN <= maxN)` binary-search loop inside
`findMinWorkers`. The loop state is `(minN, maxN, N)`;
`Math.floor((minN + maxN) / 2)` is `Int.fdiv`. A fuel argument makes the
recursion structural; the wrapper supplies fuel equal to the initial range
size, which the lemmas below show is always sufficient (each iteration
strictly shrinks `maxN + 1 - minN`, exactly as the JavaScript loop does). -/
def findMinWorkersLoop (A serviceTime maxWaitTime : ℚ) :
    ℕ → ℤ → ℤ → ℤ → ℤ
  | 0, _, _, N => N
  | fuel + 1, minN, maxN, N =>
    if minN ≤ maxN then
      if jsLe (averageWaitingTime ((minN + maxN).fdiv 2) A serviceTime)
          maxWaitTime then
        findMinWorkersLoop A serviceTime maxWaitTime fuel
          minN ((minN + maxN).fdiv 2 - 1) ((minN + maxN).fdiv 2)
      else
        findMinWorkersLoop A serviceTime maxWaitTime fuel
          ((minN + maxN).fdiv 2 + 1) maxN N
    else N

/-- Embedding of `findMinWorkers(arrivalRate, serviceTime, maxWaitTime)`:
`A = arrivalRate * serviceTime`, initial `N = ⌈A⌉ + 1`, binary search over
`[⌈A⌉, ⌈A * 3⌉]`, final `Math.max(⌈A⌉ + 1, N)`. -/
def findMinWorkers (arrivalRate serviceTime maxWaitTime : ℚ) : ℤ :=
  let A := calculateTrafficIntensity arrivalRate serviceTime
  let minN := Int.ceil A
  let maxN := Int.ceil (A * 3)
  max (Int.ceil A + 1)
    (findMinWorkersLoop A serviceTime maxWaitTime (maxN + 1 - minN).toNat
      minN maxN (Int.ceil A + 1))

/-- The wait-time SLA test applied by the search loop: the JavaScript
comparison `averageWaitingTime(N, A, serviceTime) <= maxWaitTime`. -/
def meetsWait (A serviceTime maxWaitTime : ℚ) (N : ℤ) : Prop :=
  jsLe (averageWaitingTime N A serviceTime) maxWaitTime = true

instance (A serviceTime maxWaitTime : ℚ) (N : ℤ) :
    Decidable (meetsWait A serviceTime maxWaitTime N) := by
  unfold meetsWait; infer_instance

theorem meetsWait_stable {A st maxW : ℚ} {m : ℤ}
    (hm : meetsWait A st maxW m) : A < (m : ℚ) := by
  by_contra hc
  push_neg at hc
  unfold meetsWait jsLe averageWaitingTime at hm
  rw [if_pos hc] at hm
  cases hm

theorem meetsWait_mono {A st maxW : ℚ} (hA : 0 ≤ A) (hst : 0 < st)
    {m n : ℤ} (hmn : m ≤ n) (hm : meetsWait A st maxW m) :
    meetsWait A st maxW n := by
  have hmA : A < (m : ℚ) := meetsWait_stable hm
  have hm1 : 0 < m := by
    have : (0 : ℚ) < (m : ℚ) := lt_of_le_of_lt hA hmA
    exact_mod_cast this
  have hmono := (erlangC_wait_antitone A st m n hA hm1 hmn hst).2
  unfold meetsWait jsLe at hm ⊢
  cases hw : averageWaitingTime m A st with
  | none => rw [hw] at hm; cases hm
  | some w =>
    rw [hw] at hm
    have hwle : w ≤ maxW := of_decide_eq_true hm
    cases hwn : averageWaitingTime n A st with
    | none =>
        rw [hwn, hw] at hmono
        simp only [waitLE] at hmono
    | some wn =>
        rw [hwn, hw] at hmono
        simp only [waitLE] at hmono
        simp only [decide_eq_true_eq]
        linarith

theorem fdiv2_bounds {a b : ℤ} (h : a ≤ b) :
    a ≤ (a + b).fdiv 2 ∧ (a + b).fdiv 2 ≤ b := by
  have h2 : (a + b).fdiv 2 = (a + b) / 2 := Int.fdiv_eq_ediv _ (by norm_num)
  omega

/-- If no `m` in the live range satisfies the wait-time test, the loop leaves
the best-so-far `N` untouched. -/
theorem findMinWorkersLoop_none (A st maxW : ℚ) :
    ∀ (fuel : ℕ) (minN maxN N : ℤ),
    (∀ m, minN ≤ m → m ≤ maxN → ¬meetsWait A st maxW m) →
    findMinWorkersLoop A st maxW fuel minN maxN N = N := by
  intro fuel
  induction fuel with
  | zero => intro minN maxN N _; rfl
  | succ k ih =>
      intro minN maxN N hall
      rw [findMinWorkersLoop]
      by_cases h : minN ≤ maxN
      · have hb := fdiv2_bounds h
        have hnot : ¬meetsWait A st maxW ((minN + maxN).fdiv 2) :=
          hall _ hb.1 hb.2
        rw [if_pos h, if_neg (by unfold meetsWait at hnot; simpa using hnot)]
        exact ih _ maxN N fun m h1 h2 => hall m (by omega) h2
      · rw [if_neg h]

/-- If `L` is the globally least worker count satisfying the wait-time test
(the test being upward closed) and `L` lies inside the live range, the loop
returns `L`, provided the fuel covers the range size. -/
theorem findMinWorkersLoop_found (A st maxW : ℚ) (L : ℤ)
    (hup : ∀ m n : ℤ, m ≤ n → meetsWait A st maxW m → meetsWait A st maxW n)
    (hL : meetsWait A st maxW L)
    (hbelow : ∀ m, m < L → ¬meetsWait A st maxW m) :
    ∀ (fuel : ℕ) (minN maxN N : ℤ),
    (maxN + 1 - minN).toNat ≤ fuel → minN ≤ L → L ≤ maxN →
    findMinWorkersLoop A st maxW fuel minN maxN N = L := by
  intro fuel
  induction fuel with
  | zero => intro minN maxN N hfuel h1 h2; omega
  | succ k ih =>
      intro minN maxN N hfuel h1 h2
      have h : minN ≤ maxN := le_trans h1 h2
      have hb := fdiv2_bounds h
      rw [findMinWorkersLoop, if_pos h]
      by_cases hmid : meetsWait A st maxW ((minN + maxN).fdiv 2)
      · rw [if_pos (by unfold meetsWait at hmid; simpa using hmid)]
        have hLmid : L ≤ (minN + maxN).fdiv 2 := by
          by_contra hc
          push_neg at hc
          exact hbelow _ hc hmid
        by_cases hcase : L ≤ (minN + maxN).fdiv 2 - 1
        · exact ih minN ((minN + maxN).fdiv 2 - 1) _ (by omega) h1 hcase
        · have hLeq : L = (minN + maxN).fdiv 2 := by omega
          rw [findMinWorkersLoop_none A st maxW k _ _ _
            fun m hm1 hm2 => hbelow m (by omega)]
          omega
      · rw [if_neg (by unfold meetsWait at hmid; simpa using hmid)]
        have hmidL : (minN + maxN).fdiv 2 < L := by
          by_contra hc
          push_neg at hc
          exact hmid (hup L _ hc hL)
        exact ih ((minN + maxN).fdiv 2 + 1) maxN N (by omega) (by omega) h2

/-- **C3 (amended)**: `findMinWorkers` returns the smallest integer
`N ≥ ⌈A⌉ + 1` meeting the wait-time bound (not the smallest stable feasible
integer: a feasible stable `N = ⌈A⌉` is skipped by the final
`Math.max(⌈A⌉ + 1, N)` floor), provided some worker count in the search range
`[⌈A⌉, ⌈3A⌉]` meets the bound. In particular the result is stable (`A < N`)
and every smaller `m ≥ ⌈A⌉ + 1` violates the bound. -/
theorem C3_findMinWorkers_least (arrivalRate serviceTime maxWaitTime : ℚ)
    (har : 0 < arrivalRate) (hst : 0 < serviceTime)
    (hex : ∃ Nw : ℤ,
      Int.ceil (calculateTrafficIntensity arrivalRate serviceTime) ≤ Nw ∧
      Nw ≤ Int.ceil (calculateTrafficIntensity arrivalRate serviceTime * 3) ∧
      meetsWait (calculateTrafficIntensity arrivalRate serviceTime)
        serviceTime maxWaitTime Nw) :
    meetsWait (calculateTrafficIntensity arrivalRate serviceTime) serviceTime
      maxWaitTime (findMinWorkers arrivalRate serviceTime maxWaitTime) ∧
    calculateTrafficIntensity arrivalRate serviceTime <
      ((findMinWorkers arrivalRate serviceTime maxWaitTime : ℤ) : ℚ) ∧
    Int.ceil (calculateTrafficIntensity arrivalRate serviceTime) + 1 ≤
      findMinWorkers arrivalRate serviceTime maxWaitTime ∧
    ∀ m : ℤ,
      Int.ceil (calculateTrafficIntensity arrivalRate serviceTime) + 1 ≤ m →
      m < findMinWorkers arrivalRate serviceTime maxWaitTime →
      ¬meetsWait (calculateTrafficIntensity arrivalRate serviceTime)
        serviceTime maxWaitTime m := by
  set A := calculateTrafficIntensity arrivalRate serviceTime with hA_def
  have hA : 0 ≤ A := by
    have : A = arrivalRate * serviceTime := rfl
    rw [this]
    positivity
  obtain ⟨Nw, hNw1, hNw2, hNwf⟩ := hex
  have hbdd : ∃ b : ℤ, ∀ z : ℤ, meetsWait A serviceTime maxWaitTime z → b ≤ z :=
    ⟨Int.ceil A, fun z hz => Int.ceil_le.mpr (meetsWait_stable hz).le⟩
  obtain ⟨L, hLmem, hLleast⟩ :=
    Int.exists_least_of_bdd hbdd ⟨Nw, hNwf⟩
  have hbelow : ∀ m, m < L → ¬meetsWait A serviceTime maxWaitTime m :=
    fun m hm hmf => absurd (hLleast m hmf) (by omega)
  have hup : ∀ m n : ℤ, m ≤ n → meetsWait A serviceTime maxWaitTime m →
      meetsWait A serviceTime maxWaitTime n :=
    fun m n hmn hm => meetsWait_mono hA hst hmn hm
  have hminL : Int.ceil A ≤ L := Int.ceil_le.mpr (meetsWait_stable hLmem).le
  have hLmax : L ≤ Int.ceil (A * 3) := le_trans (hLleast Nw hNwf) hNw2
  have hloop := findMinWorkersLoop_found A serviceTime maxWaitTime L hup hLmem
    hbelow (Int.ceil (A * 3) + 1 - Int.ceil A).toNat (Int.ceil A)
    (Int.ceil (A * 3)) (Int.ceil A + 1) le_rfl hminL hLmax
  have hfmw : findMinWorkers arrivalRate serviceTime maxWaitTime =
      max (Int.ceil A + 1) L := by
    simp only [findMinWorkers, ← hA_def]
    rw [hloop]
  refine ⟨?_, ?_, ?_, ?_⟩
  · rw [hfmw]
    exact hup L _ (le_max_right _ _) hLmem
  · rw [hfmw]
    have h1 : A ≤ (Int.ceil A : ℚ) := Int.le_ceil A
    have h2 : Int.ceil A + 1 ≤ max (Int.ceil A + 1) L := le_max_left _ _
    calc A < ((Int.ceil A + 1 : ℤ) : ℚ) := by push_cast; linarith
      _ ≤ ((max (Int.ceil A + 1) L : ℤ) : ℚ) := by exact_mod_cast h2
  · rw [hfmw]
    exact le_max_left _ _
  · intro m hm1 hm2
    rw [hfmw] at hm2
    rcases le_or_lt (Int.ceil A + 1) L with hcase | hcase
    · rw [max_eq_right hcase] at hm2
      exact hbelow m hm2
    · rw [max_eq_left hcase.le] at hm2
      intro _
      omega

/-- **C3 (counterexample)**: at `arrivalRate = 1`, `serviceTime = 1/2`,
`maxWaitTime = 1` (so `A = 1/2`), the worker count `N = 1` is stable
(`1 > A`) and meets the bound (`averageWaitingTime = 1/2 ≤ 1`), yet
`findMinWorkers` returns `2`, not the smallest stable feasible integer `1`;
in particular the returned `N` has `N-1 = 1 > A` with
`averageWaitingTime(1) ≤ maxWaitTime`, contradicting the claim. -/
theorem C3_counterexample :
    findMinWorkers 1 (1/2) 1 = 2 ∧
    averageWaitingTime 1 (calculateTrafficIntensity 1 (1/2)) (1/2) =
      some (1/2) ∧
    calculateTrafficIntensity 1 (1/2) < ((1 : ℤ) : ℚ) ∧ ((1 : ℚ)/2 ≤ 1) := by
  have hc1 : Int.ceil ((1 : ℚ)/2) = 1 := by
    rw [Int.ceil_eq_iff] <;> norm_num
  have hc2 : Int.ceil ((3 : ℚ)/2) = 2 := by
    rw [Int.ceil_eq_iff] <;> norm_num
  refine ⟨?_, ?_, ?_, by norm_num⟩
  · norm_num [findMinWorkers, calculateTrafficIntensity]
    rw [hc1, hc2]
    norm_num [findMinWorkersLoop, jsLe, averageWaitingTime, erlangC,
      erlangTerm, erlangSum, factorial, Finset.sum_range_succ, Int.fdiv]
  · norm_num [averageWaitingTime, calculateTrafficIntensity, erlangC,
      erlangTerm, erlangSum, factorial, Finset.sum_range_succ]
  · norm_num [calculateTrafficIntensity]

/-- **C3 (witness)**: the amended statement instantiated at
`arrivalRate = 1`, `serviceTime = 1/2`, `maxWaitTime = 1`. -/
theorem C3_witness :
    meetsWait (calculateTrafficIntensity 1 (1/2)) (1/2) 1
      (findMinWorkers 1 (1/2) 1) ∧
    calculateTrafficIntensity 1 (1/2) <
      ((findMinWorkers 1 (1/2) 1 : ℤ) : ℚ) ∧
    Int.ceil (calculateTrafficIntensity 1 (1/2)) + 1 ≤ findMinWorkers 1 (1/2) 1 ∧
    ∀ m : ℤ, Int.ceil (calculateTrafficIntensity 1 (1/2)) + 1 ≤ m →
      m < findMinWorkers 1 (1/2) 1 →
      ¬meetsWait (calculateTrafficIntensity 1 (1/2)) (1/2) 1 m := by
  apply C3_findMinWorkers_least 1 (1/2) 1 (by norm_num) (by norm_num)
  refine ⟨1, ?_, ?_, ?_⟩
  · rw [show calculateTrafficIntensity 1 (1/2) = (1 : ℚ)/2 by
      norm_num [calculateTrafficIntensity]]
    rw [show Int.ceil ((1 : ℚ)/2) = 1 by rw [Int.ceil_eq_iff] <;> norm_num]
  · rw [show calculateTrafficIntensity 1 (1/2) * 3 = (3 : ℚ)/2 by
      norm_num [calculateTrafficIntensity]]
    rw [show Int.ceil ((3 : ℚ)/2) = 2 by rw [Int.ceil_eq_iff] <;> norm_num]
    norm_num
  · norm_num [meetsWait, jsLe, averageWaitingTime, calculateTrafficIntensity,
      erlangC, erlangTerm, erlangSum, factorial, Finset.sum_range_succ]

/-- **C5 (amended)**: when no worker count in the search range
`[⌈A⌉, ⌈3A⌉]` meets the wait-time bound, `findMinWorkers` terminates and
returns `⌈A⌉ + 1` (the initial best-so-far, i.e. the lower end of the stable
range), not the upper bound `⌈3A⌉`. -/
theorem C5_findMinWorkers_infeasible (arrivalRate serviceTime maxWaitTime : ℚ)
    (hall : ∀ m : ℤ,
      Int.ceil (calculateTrafficIntensity arrivalRate serviceTime) ≤ m →
      m ≤ Int.ceil (calculateTrafficIntensity arrivalRate serviceTime * 3) →
      ¬meetsWait (calculateTrafficIntensity arrivalRate serviceTime)
        serviceTime maxWaitTime m) :
    findMinWorkers arrivalRate serviceTime maxWaitTime =
      Int.ceil (calculateTrafficIntensity arrivalRate serviceTime) + 1 := by
  simp only [findMinWorkers]
  rw [findMinWorkersLoop_none _ _ _ _ _ _ _ hall]
  exact max_self _

/-- **C5 (counterexample)**: at `arrivalRate = 2`, `serviceTime = 1`,
`maxWaitTime = 0` (so `A = 2`, search range `[2, 6]`) no worker count in the
range meets the bound, and `findMinWorkers` returns `3 = ⌈A⌉ + 1`, not the
upper bound `⌈3A⌉ = 6` the claim asserts. -/
theorem C5_counterexample :
    (∀ m ∈ Finset.Icc (2 : ℤ) 6,
      ¬meetsWait (calculateTrafficIntensity 2 1) 1 0 m) ∧
    Int.ceil (calculateTrafficIntensity 2 1) = 2 ∧
    Int.ceil (calculateTrafficIntensity 2 1 * 3) = 6 ∧
    findMinWorkers 2 1 0 = 3 := by
  have hA : calculateTrafficIntensity 2 1 = (2 : ℚ) := by
    norm_num [calculateTrafficIntensity]
  have hinfeasible : ∀ m ∈ Finset.Icc (2 : ℤ) 6,
      ¬meetsWait (calculateTrafficIntensity 2 1) 1 0 m := by
    intro m hm
    rw [Finset.mem_Icc] at hm
    rw [hA]
    obtain ⟨hm1, hm2⟩ := hm
    interval_cases m <;>
      norm_num [meetsWait, jsLe, averageWaitingTime, erlangC, erlangTerm,
        erlangSum, factorial, Finset.sum_range_succ, List.range',
        show ((3 : ℤ)).toNat = 3 from rfl, show ((4 : ℤ)).toNat = 4 from rfl,
        show ((5 : ℤ)).toNat = 5 from rfl, show ((6 : ℤ)).toNat = 6 from rfl]
  refine ⟨hinfeasible, ?_, ?_, ?_⟩
  · rw [hA]; norm_num
  · rw [hA]; norm_num
  · norm_num [findMinWorkers, calculateTrafficIntensity, findMinWorkersLoop,
      jsLe, averageWaitingTime, erlangC, erlangTerm, erlangSum, factorial,
      Finset.sum_range_succ, Int.fdiv, List.range',
      show ((3 : ℤ)).toNat = 3 from rfl, show ((4 : ℤ)).toNat = 4 from rfl,
      show ((5 : ℤ)).toNat = 5 from rfl, show ((6 : ℤ)).toNat = 6 from rfl]

/-- **C5 (witness)**: the amended statement instantiated at
`arrivalRate = 2`, `serviceTime = 1`, `maxWaitTime = 0`. -/
theorem C5_witness :
    findMinWorkers 2 1 0 =
      Int.ceil (calculateTrafficIntensity 2 1) + 1 := by
  apply C5_findMinWorkers_infeasible 2 1 0
  intro m h1 h2
  have hA : calculateTrafficIntensity 2 1 = (2 : ℚ) := by
    norm_num [calculateTrafficIntensity]
  rw [hA] at h1 h2 ⊢
  norm_num at h1 h2
  interval_cases m <;>
    norm_num [meetsWait, jsLe, averageWaitingTime, erlangC, erlangTerm,
      erlangSum, factorial, Finset.sum_range_succ, List.range',
      show ((3 : ℤ)).toNat = 3 from rfl, show ((4 : ℤ)).toNat = 4 from rfl,
      show ((5 : ℤ)).toNat = 5 from rfl, show ((6 : ℤ)).toNat = 6 from rfl]

/-- **C1 (witness)**: the contract instantiated at concrete inputs covering
all three cases: `N = -1`, at `A ≥ N`, and at `0 < A < N`. -/
theorem C1_witness :
    erlangC (-1) 5 = 0 ∧ erlangC 2 3 = 1 ∧
    (erlangC 2 1 = erlangCspec 2 1 ∧ 0 ≤ erlangC 2 1 ∧ erlangC 2 1 ≤ 1) :=
  ⟨(C1_erlangC_contract (-1) 5).1 (Or.inl (by norm_num)),
   (C1_erlangC_contract 2 3).2.1 (by norm_num) (by norm_num) (by norm_num),
   (C1_erlangC_contract 2 1).2.2 (by norm_num) (by norm_num)⟩

/-- **C7 (witness)**: the unstable case `N = 2 ≤ A = 3` yields `+∞` for both
metrics, and the stable case `N = 2 > A = 1` yields the quotient forms. -/
theorem C7_witness :
    averageWaitingTime 2 3 1 = none ∧ averageQueueLength 2 3 = none ∧
    averageWaitingTime 2 1 1 =
      some (erlangC 2 1 * 1 / (((2 : ℤ) : ℚ) - 1)) ∧
    averageQueueLength 2 1 =
      some (1 * erlangC 2 1 / (((2 : ℤ) : ℚ) - 1)) := by
  refine ⟨?_, ?_, ?_, ?_⟩
  · exact (C7_unstable_infinity 2 3 1).1.mpr (by norm_num)
  · exact (C7_unstable_infinity 2 3 1).2.1.mpr (by norm_num)
  · exact (C7_unstable_infinity 2 1 1).2.2.1 (by norm_num)
  · exact (C7_unstable_infinity 2 1 1).2.2.2 (by norm_num)

/-- **C9**: for fixed `A ≥ 0` and positive integer worker counts
`N1 ≤ N2`, `erlangC(N2, A) ≤ erlangC(N1, A)` and, for positive service time,
`averageWaitingTime(N2, A, t) ≤ averageWaitingTime(N1, A, t)` in the order
where `+∞` (`none`) is the top element: adding capacity never increases the
delay probability or the expected wait. -/
theorem C9_monotone_in_workers (A t : ℚ) (N1 N2 : ℤ) (hA : 0 ≤ A)
    (h1 : 0 < N1) (h12 : N1 ≤ N2) (ht : 0 < t) :
    erlangC N2 A ≤ erlangC N1 A ∧
    waitLE (averageWaitingTime N2 A t) (averageWaitingTime N1 A t) :=
  erlangC_wait_antitone A t N1 N2 hA h1 h12 ht

/-- **C9 (witness)**: monotonicity instantiated at `A = 1`, `t = 1`,
`N1 = 2 ≤ N2 = 3`. -/
theorem C9_witness :
    erlangC 3 1 ≤ erlangC 2 1 ∧
    waitLE (averageWaitingTime 3 1 1) (averageWaitingTime 2 1 1) :=
  C9_monotone_in_workers 1 1 2 3 (by norm_num) (by norm_num) (by norm_num)
    (by norm_num)

/- ### `generateDataPoints` -/

/-- One element of the array built by `generateDataPoints` in
`src/utils/erlangC.js`; field names follow the source object literal
(`probabilityDelay`, not the spec's `probabilityOfDelay`). `waitTime` is in
milliseconds and may be `Infinity` (`none`). -/
structure DataPoint where
  workers : ℤ
  probabilityDelay : ℚ
  waitTime : Option ℚ
  queueLength : Option ℚ
  utilization : ℚ
  trafficIntensity : ℚ

/-- The integers of `[lo, hi]` in ascending order: the index sequence of the
JavaScript loop `for (let N = minWorkers; N <= maxWorkers; N++)`. -/
def intRange (lo hi : ℤ) : List ℤ :=
  (List.range (hi + 1 - lo).toNat).map (fun (i : ℕ) => lo + (i : ℤ))

/-- Embedding of `generateDataPoints(arrivalRate, serviceTime, minWorkers,
maxWorkers)`: one record per integer worker count, with
`probabilityDelay = P * 100` and `waitTime = averageWaitingTime * 1000`
exactly as the source pushes them. -/
def generateDataPoints (arrivalRate serviceTime : ℚ)
    (minWorkers maxWorkers : ℤ) : List DataPoint :=
  (intRange minWorkers maxWorkers).map fun N =>
    { workers := N
      probabilityDelay :=
        erlangC N (calculateTrafficIntensity arrivalRate serviceTime) * 100
      waitTime :=
        (averageWaitingTime N (calculateTrafficIntensity arrivalRate serviceTime)
          serviceTime).map (fun w => w * 1000)
      queueLength :=
        averageQueueLength N (calculateTrafficIntensity arrivalRate serviceTime)
      utilization :=
        calculateUtilization N (calculateTrafficIntensity arrivalRate serviceTime)
      trafficIntensity := calculateTrafficIntensity arrivalRate serviceTime }

theorem calculateUtilization_bounds {N : ℤ} {A : ℚ} (hN : 0 ≤ N) (hA : 0 ≤ A) :
    0 ≤ calculateUtilization N A ∧ calculateUtilization N A ≤ 100 := by
  unfold calculateUtilization
  split
  · norm_num
  · rename_i hne
    have hNpos : (0 : ℚ) < (N : ℚ) := by
      have : 0 < N := lt_of_le_of_ne hN (Ne.symm hne)
      exact_mod_cast this
    refine ⟨le_min (by norm_num) (by positivity), min_le_left _ _⟩

theorem generateDataPoints_length (arrivalRate serviceTime : ℚ)
    (minWorkers maxWorkers : ℤ) :
    (generateDataPoints arrivalRate serviceTime minWorkers maxWorkers).length =
      (maxWorkers + 1 - minWorkers).toNat := by
  simp only [generateDataPoints, intRange, List.length_map, List.length_range]

theorem generateDataPoints_get (arrivalRate serviceTime : ℚ)
    (minWorkers maxWorkers : ℤ) (i : ℕ)
    (hi : i <
      (generateDataPoints arrivalRate serviceTime minWorkers maxWorkers).length) :
    (generateDataPoints arrivalRate serviceTime minWorkers maxWorkers).get
        ⟨i, hi⟩ =
      { workers := minWorkers + (i : ℤ)
        probabilityDelay :=
          erlangC (minWorkers + (i : ℤ))
            (calculateTrafficIntensity arrivalRate serviceTime) * 100
        waitTime :=
          (averageWaitingTime (minWorkers + (i : ℤ))
            (calculateTrafficIntensity arrivalRate serviceTime)
            serviceTime).map (fun w => w * 1000)
        queueLength :=
          averageQueueLength (minWorkers + (i : ℤ))
            (calculateTrafficIntensity arrivalRate serviceTime)
        utilization :=
          calculateUtilization (minWorkers + (i : ℤ))
            (calculateTrafficIntensity arrivalRate serviceTime)
        trafficIntensity :=
          calculateTrafficIntensity arrivalRate serviceTime } := by
  simp only [generateDataPoints, intRange, List.map_map, List.get_eq_getElem,
    List.getElem_map, List.getElem_range, Function.comp]

/-- **C6 (amended)**: `generateDataPoints` emits exactly one record per
integer `N` in `[minWorkers, maxWorkers]`, in ascending order (`workers` of
the `i`-th record is `minWorkers + i`), whose fields are
`probabilityDelay = erlangC(N, A) * 100` (a percentage in `[0, 100]`, not
the claimed probability in `[0, 1]`), `waitTime = averageWaitingTime * 1000`
(milliseconds, not seconds, `none` for `+∞`),
`queueLength = averageQueueLength(N, A)`,
`utilization = calculateUtilization(N, A)` (in `[0, 100]`), and
`trafficIntensity = A = arrivalRate * serviceTime`. -/
theorem C6_generateDataPoints_spec (arrivalRate serviceTime : ℚ)
    (minWorkers maxWorkers : ℤ) (hmin : 1 ≤ minWorkers)
    (hA : 0 ≤ arrivalRate * serviceTime) (i : ℕ)
    (hi : i <
      (generateDataPoints arrivalRate serviceTime minWorkers maxWorkers).length) :
    (generateDataPoints arrivalRate serviceTime minWorkers maxWorkers).length =
      (maxWorkers + 1 - minWorkers).toNat ∧
    (generateDataPoints arrivalRate serviceTime minWorkers maxWorkers).get
        ⟨i, hi⟩ =
      { workers := minWorkers + (i : ℤ)
        probabilityDelay :=
          erlangC (minWorkers + (i : ℤ))
            (calculateTrafficIntensity arrivalRate serviceTime) * 100
        waitTime :=
          (averageWaitingTime (minWorkers + (i : ℤ))
            (calculateTrafficIntensity arrivalRate serviceTime)
            serviceTime).map (fun w => w * 1000)
        queueLength :=
          averageQueueLength (minWorkers + (i : ℤ))
            (calculateTrafficIntensity arrivalRate serviceTime)
        utilization :=
          calculateUtilization (minWorkers + (i : ℤ))
            (calculateTrafficIntensity arrivalRate serviceTime)
        trafficIntensity :=
          calculateTrafficIntensity arrivalRate serviceTime } ∧
    0 ≤ ((generateDataPoints arrivalRate serviceTime minWorkers maxWorkers).get
        ⟨i, hi⟩).probabilityDelay ∧
    ((generateDataPoints arrivalRate serviceTime minWorkers maxWorkers).get
        ⟨i, hi⟩).probabilityDelay ≤ 100 ∧
    0 ≤ ((generateDataPoints arrivalRate serviceTime minWorkers maxWorkers).get
        ⟨i, hi⟩).utilization ∧
    ((generateDataPoints arrivalRate serviceTime minWorkers maxWorkers).get
        ⟨i, hi⟩).utilization ≤ 100 := by
  have hget := generateDataPoints_get arrivalRate serviceTime minWorkers
    maxWorkers i hi
  have hC0 := erlangC_nonneg (minWorkers + (i : ℤ))
    (calculateTrafficIntensity arrivalRate serviceTime)
  have hC1 := erlangC_le_one (minWorkers + (i : ℤ))
    (calculateTrafficIntensity arrivalRate serviceTime)
  have hutil := calculateUtilization_bounds
    (N := minWorkers + (i : ℤ))
    (A := calculateTrafficIntensity arrivalRate serviceTime)
    (by omega) hA
  refine ⟨generateDataPoints_length arrivalRate serviceTime minWorkers
    maxWorkers, hget, ?_, ?_, ?_, ?_⟩ <;> rw [hget]
  · exact mul_nonneg hC0 (by norm_num)
  · have h100 : erlangC (minWorkers + (i : ℤ))
        (calculateTrafficIntensity arrivalRate serviceTime) * 100 ≤ 100 := by
      nlinarith
    exact h100
  · exact hutil.1
  · exact hutil.2

/-- **C6 (counterexample)**: at `arrivalRate = 1`, `serviceTime = 1`,
`minWorkers = maxWorkers = 1` the single emitted record carries
`probabilityDelay = 100` (a percentage) while `erlangC(1, 1) = 1`: the field
is not the `[0, 1]` probability value the claim asserts (and the `waitTime`
field is `averageWaitingTime * 1000`, milliseconds rather than seconds). -/
theorem C6_counterexample :
    (generateDataPoints 1 1 1 1).map (fun p => p.probabilityDelay) = [100] ∧
    erlangC 1 (calculateTrafficIntensity 1 1) = 1 ∧
    ¬((100 : ℚ) ≤ 1) := by
  have hA : calculateTrafficIntensity 1 1 = (1 : ℚ) := by
    norm_num [calculateTrafficIntensity]
  have hC : erlangC 1 (calculateTrafficIntensity 1 1) = 1 := by
    rw [hA]
    exact erlangC_saturated (by norm_num) (by norm_num) (by norm_num)
  refine ⟨?_, hC, by norm_num⟩
  have h1 : generateDataPoints 1 1 1 1 =
      [{ workers := 1
         probabilityDelay := erlangC 1 (calculateTrafficIntensity 1 1) * 100
         waitTime := (averageWaitingTime 1 (calculateTrafficIntensity 1 1)
           1).map (fun w => w * 1000)
         queueLength := averageQueueLength 1 (calculateTrafficIntensity 1 1)
         utilization := calculateUtilization 1 (calculateTrafficIntensity 1 1)
         trafficIntensity := calculateTrafficIntensity 1 1 }] := by
    simp only [generateDataPoints, intRange,
      show ((1 : ℤ) + 1 - 1).toNat = 1 from rfl,
      show List.range 1 = [0] from rfl, List.map_cons, List.map_nil,
      Function.comp]
    norm_num
  rw [h1, List.map_cons, List.map_nil, hC]
  norm_num

/-- **C6 (witness)**: the amended statement instantiated at
`arrivalRate = 1`, `serviceTime = 1`, `minWorkers = 1`, `maxWorkers = 2`,
`i = 0`. -/
theorem C6_witness :
    (generateDataPoints 1 1 1 2).length = ((2 : ℤ) + 1 - 1).toNat ∧
    (generateDataPoints 1 1 1 2).get
        ⟨0, by rw [generateDataPoints_length]; norm_num⟩ =
      { workers := 1 + ((0 : ℕ) : ℤ)
        probabilityDelay :=
          erlangC (1 + ((0 : ℕ) : ℤ)) (calculateTrafficIntensity 1 1) * 100
        waitTime :=
          (averageWaitingTime (1 + ((0 : ℕ) : ℤ))
            (calculateTrafficIntensity 1 1) 1).map (fun w => w * 1000)
        queueLength :=
          averageQueueLength (1 + ((0 : ℕ) : ℤ)) (calculateTrafficIntensity 1 1)
        utilization :=
          calculateUtilization (1 + ((0 : ℕ) : ℤ))
            (calculateTrafficIntensity 1 1)
        trafficIntensity := calculateTrafficIntensity 1 1 } ∧
    0 ≤ ((generateDataPoints 1 1 1 2).get
        ⟨0, by rw [generateDataPoints_length]; norm_num⟩).probabilityDelay ∧
    ((generateDataPoints 1 1 1 2).get
        ⟨0, by rw [generateDataPoints_length]; norm_num⟩).probabilityDelay ≤ 100 ∧
    0 ≤ ((generateDataPoints 1 1 1 2).get
        ⟨0, by rw [generateDataPoints_length]; norm_num⟩).utilization ∧
    ((generateDataPoints 1 1 1 2).get
        ⟨0, by rw [generateDataPoints_length]; norm_num⟩).utilization ≤ 100 :=
  C6_generateDataPoints_spec 1 1 1 2 le_rfl (by norm_num) 0
    (by rw [generateDataPoints_length]; norm_num)

/- ### FleetOptimizer: the optimization chain of `FleetVisualizations.js` -/

/-- The props consumed by the `optimizationChainData` computation in
`src/components/FleetVisualizations.js`. -/
structure FleetParams where
  totalArrivalRate : ℚ
  serviceTime : ℚ
  numServers : ℤ
  workersPerServer : ℤ
  maxWaitTimeMs : ℚ
  maxProbabilityDelay : ℚ
  costPerWorker : ℚ
  perServerOverhead : ℚ
  optMinWorkers : Option ℤ
  optMaxWorkers : Option ℤ

/-- The `isValid` guard of `FleetVisualizations` (the `isFinite` checks are
vacuous over `ℚ`). -/
def isValid (p : FleetParams) : Prop :=
  0 < p.totalArrivalRate ∧ 0 < p.serviceTime ∧ 0 < p.numServers ∧
    0 < p.workersPerServer ∧ 0 < p.maxWaitTimeMs ∧ 0 ≤ p.maxProbabilityDelay

instance (p : FleetParams) : Decidable (isValid p) := by
  unfold isValid; infer_instance

def totalTrafficIntensity (p : FleetParams) : ℚ :=
  calculateTrafficIntensity p.totalArrivalRate p.serviceTime

/-- The descending target-utilization sweep
`for (let targetUtil = 95; targetUtil >= 30; targetUtil -= 2)`:
the values actually visited are `95, 93, ..., 31`. -/
def utilTargets : List ℚ :=
  (List.range 33).map (fun (i : ℕ) => (95 : ℚ) - 2 * (i : ℚ))

/-- One record of the optimization chain, with the fields pushed by
`FleetVisualizations.js` (all `ℚ`-valued fields are finite by construction). -/
structure ChainRecord where
  workersPerServer : ℤ
  maxFeasibleUtilization : ℚ
  minServersRequired : ℤ
  waitTimeAtOptimal : ℚ
  totalWorkers : ℤ
  totalCost : ℚ

/-- One iteration of the inner `targetUtil` loop: `none` models every
`continue` (servers out of `[1, 10000]`, per-server instability, non-finite
metric, or SLA violation); `some (utilization, requiredServers, waitTimeMs)`
models reaching the SLA check and passing it. -/
def chainTry (p : FleetParams) (workers : ℤ) (targetUtil : ℚ) :
    Option (ℚ × ℤ × ℚ) :=
  let requiredServers : ℤ :=
    Int.ceil (totalTrafficIntensity p * 100 / (targetUtil * (workers : ℚ)))
  if requiredServers < 1 ∨ 10000 < requiredServers then none
  else
    let arrivalRatePerServer := p.totalArrivalRate / (requiredServers : ℚ)
    let trafficIntensityPerServer :=
      calculateTrafficIntensity arrivalRatePerServer p.serviceTime
    if (workers : ℚ) ≤ trafficIntensityPerServer then none
    else
      match averageWaitingTime workers trafficIntensityPerServer
          p.serviceTime with
      | none => none
      | some w0 =>
          if w0 * 1000 ≤ p.maxWaitTimeMs ∧
              erlangC workers trafficIntensityPerServer * 100 ≤
                p.maxProbabilityDelay then
            some (calculateUtilization workers trafficIntensityPerServer,
              requiredServers, w0 * 1000)
          else none

/-- The loop state
`(maxFeasibleUtilization, minServersAtMaxUtil, waitTimeAtMaxUtil)`; the two
`Infinity` initializers are `none`. On the first `targetUtil` that passes the
SLA check the state is updated (when the utilization improves) and the loop
`break`s. -/
def chainLoop (p : FleetParams) (workers : ℤ) :
    List ℚ → ℚ × Option ℤ × Option ℚ → ℚ × Option ℤ × Option ℚ
  | [], st => st
  | u :: rest, st =>
    match chainTry p workers u with
    | none => chainLoop p workers rest st
    | some (util, srv, w) => if st.1 < util then (util, some srv, some w) else st

/-- The record pushed for one `workers` value when the final guard
`maxFeasibleUtilization > 0 && minServersAtMaxUtil < Infinity` holds. -/
def chainPoint (p : FleetParams) (workers : ℤ) : Option ChainRecord :=
  match chainLoop p workers utilTargets (0, none, none) with
  | (maxU, some srv, some w) =>
      if 0 < maxU then
        some { workersPerServer := workers
               maxFeasibleUtilization := maxU
               minServersRequired := srv
               waitTimeAtOptimal := w
               totalWorkers := workers * srv
               totalCost := p.costPerWorker * (srv : ℚ) * (workers : ℚ) +
                 p.perServerOverhead * (srv : ℚ) }
      else none
  | _ => none

/-- The ascending arithmetic progression `lo, lo + step, ...` not exceeding
`hi`: the JavaScript sampling loop
`for (let workers = minWorkers; workers <= maxWorkers; workers += stepSize)`. -/
def stepRange (lo hi step : ℤ) : List ℤ :=
  (List.range (((hi - lo).fdiv step) + 1).toNat).map
    (fun (i : ℕ) => lo + step * (i : ℤ))

/-- The sampled candidate worker counts: current `workersPerServer`, the
sampled loop values, and both endpoints, deduplicated and sorted ascending
(`Array.from(workersToTest).sort((a, b) => a - b)`). -/
def workersToTest (p : FleetParams) : List ℤ :=
  let minWorkers := match p.optMinWorkers with
    | some v => max 1 v
    | none => max 1 (p.workersPerServer - 10)
  let maxWorkers := match p.optMaxWorkers with
    | some v => min 1000 (max minWorkers v)
    | none => min 200 (max (p.workersPerServer + 20)
        (Int.ceil (totalTrafficIntensity p / 2)))
  let range := maxWorkers - minWorkers
  let stepSize := if 50 < range then max 1 (range.fdiv 50) else 1
  ((p.workersPerServer :: stepRange minWorkers maxWorkers stepSize) ++
      [minWorkers, maxWorkers]).dedup.mergeSort (fun a b => decide (a ≤ b))

/-- Embedding of `optimizationChainData`: empty when `isValid` fails,
otherwise one record per candidate worker count that admits a feasible
configuration. -/
def optimizationChainData (p : FleetParams) : List ChainRecord :=
  if isValid p then (workersToTest p).filterMap (chainPoint p) else []

/-- The record built from a successful `chainTry` outcome. -/
def chainRecordOf (p : FleetParams) (workers : ℤ) (r : ℚ × ℤ × ℚ) :
    ChainRecord :=
  { workersPerServer := workers
    maxFeasibleUtilization := r.1
    minServersRequired := r.2.1
    waitTimeAtOptimal := r.2.2
    totalWorkers := workers * r.2.1
    totalCost := p.costPerWorker * (r.2.1 : ℚ) * (workers : ℚ) +
      p.perServerOverhead * (r.2.1 : ℚ) }

theorem calculateUtilization_pos {N : ℤ} {A : ℚ} (hN : 0 < N) (hA : 0 < A) :
    0 < calculateUtilization N A := by
  unfold calculateUtilization
  rw [if_neg (by omega)]
  have hNq : (0 : ℚ) < (N : ℚ) := by exact_mod_cast hN
  exact lt_min (by norm_num) (by positivity)

/-- Inversion of a successful `chainTry`: the emitted triple records a server
count in `[1, 10000]`, a stable per-server load, the actual utilization, and
SLA-satisfying wait time and delay probability. -/
theorem chainTry_some_inv {p : FleetParams} {workers : ℤ} {u util : ℚ}
    {srv : ℤ} {w : ℚ} (h : chainTry p workers u = some (util, srv, w)) :
    1 ≤ srv ∧ srv ≤ 10000 ∧
    p.totalArrivalRate / (srv : ℚ) * p.serviceTime < (workers : ℚ) ∧
    util = calculateUtilization workers
      (p.totalArrivalRate / (srv : ℚ) * p.serviceTime) ∧
    w ≤ p.maxWaitTimeMs ∧
    erlangC workers (p.totalArrivalRate / (srv : ℚ) * p.serviceTime) * 100 ≤
      p.maxProbabilityDelay := by
  unfold chainTry at h
  simp only [calculateTrafficIntensity] at h
  split at h
  · cases h
  next hguard =>
    split at h
    next hstable => cases h
    next hstable =>
      split at h
      next hwait => cases h
      next w0 hwait =>
        split at h
        next hsla =>
          simp only [Option.some.injEq, Prod.mk.injEq] at h
          obtain ⟨h1, h2, h3⟩ := h
          push_neg at hguard hstable
          subst h2
          exact ⟨hguard.1, hguard.2, hstable, h1.symm, h3 ▸ hsla.1, hsla.2⟩
        next hsla => cases h

theorem chainTry_util_pos {p : FleetParams} {workers : ℤ} {u util : ℚ}
    {srv : ℤ} {w : ℚ} (har : 0 < p.totalArrivalRate) (hst : 0 < p.serviceTime)
    (hw : 1 ≤ workers) (h : chainTry p workers u = some (util, srv, w)) :
    0 < util := by
  obtain ⟨hs1, _, _, hutil, _, _⟩ := chainTry_some_inv h
  have hsrv : (0 : ℚ) < (srv : ℚ) := by exact_mod_cast hs1
  rw [hutil]
  exact calculateUtilization_pos (by omega) (by positivity)

theorem findSome?_map_comp {α β γ : Type} (f : α → Option β) (g : β → γ)
    (l : List α) :
    l.findSome? (fun a => (f a).map g) = (l.findSome? f).map g := by
  induction l with
  | nil => rfl
  | cons a t ih => cases h : f a <;> simp [List.findSome?_cons, h, ih]

/-- The inner `targetUtil` loop realizes a first-hit search: starting from the
state `(0, Infinity, Infinity)`, it returns the first `chainTry` success (the
`break` fires on the first SLA-satisfying target, whose utilization is
positive and hence beats the initial 0). -/
theorem chainLoop_eq_findSome (p : FleetParams) (workers : ℤ)
    (har : 0 < p.totalArrivalRate) (hst : 0 < p.serviceTime)
    (hw : 1 ≤ workers) (L : List ℚ) :
    chainLoop p workers L (0, none, none) =
      match L.findSome? (chainTry p workers) with
      | none => (0, none, none)
      | some (util, srv, w) => (util, some srv, some w) := by
  induction L with
  | nil => rfl
  | cons a rest ih =>
      rw [chainLoop]
      cases hu : chainTry p workers a with
      | none => rw [List.findSome?_cons, hu]; exact ih
      | some t =>
          obtain ⟨util, srv, w⟩ := t
          have hpos : (0 : ℚ) < util := chainTry_util_pos har hst hw hu
          rw [List.findSome?_cons, hu]
          simp [hpos]

theorem chainPoint_eq_findSome (p : FleetParams) (workers : ℤ)
    (har : 0 < p.totalArrivalRate) (hst : 0 < p.serviceTime)
    (hw : 1 ≤ workers) :
    chainPoint p workers = utilTargets.findSome?
      (fun targetUtil =>
        (chainTry p workers targetUtil).map (chainRecordOf p workers)) := by
  unfold chainPoint
  rw [chainLoop_eq_findSome p workers har hst hw utilTargets,
    findSome?_map_comp]
  cases hfs : utilTargets.findSome? (chainTry p workers) with
  | none => simp
  | some t =>
      obtain ⟨util, srv, w⟩ := t
      obtain ⟨targetU, _, hu2⟩ := List.exists_of_findSome?_eq_some hfs
      have hpos : (0 : ℚ) < util := chainTry_util_pos har hst hw hu2
      simp [hpos, chainRecordOf]

/-- The utilization targets actually visited by
`for (let targetUtil = 95; targetUtil >= 30; targetUtil -= 2)`. -/
theorem utilTargets_eq :
    utilTargets = [95, 93, 91, 89, 87, 85, 83, 81, 79, 77, 75, 73, 71, 69,
      67, 65, 63, 61, 59, 57, 55, 53, 51, 49, 47, 45, 43, 41, 39, 37, 35,
      33, 31] := by
  norm_num [utilTargets, List.range_succ]

/-- **C4**: for each candidate worker count, the inner loop tries target
utilizations in the descending order `95, 93, ..., 31` (step 2, bounded
below by 30), skipping a target when the required server count leaves
`[1, 10000]`, when the per-server system would be unstable, when a metric is
non-finite, or when the SLA is violated; the first target passing the SLA
check terminates the loop and its configuration is exactly the emitted
record (`chainTry`/`chainRecordOf` are the per-target evaluation and record
constructor read off the source). -/
theorem C4_optimization_chain_greedy (p : FleetParams) (workers : ℤ)
    (har : 0 < p.totalArrivalRate) (hst : 0 < p.serviceTime)
    (hw : 1 ≤ workers) :
    chainPoint p workers = utilTargets.findSome?
      (fun targetUtil =>
        (chainTry p workers targetUtil).map (chainRecordOf p workers)) ∧
    utilTargets = [95, 93, 91, 89, 87, 85, 83, 81, 79, 77, 75, 73, 71, 69,
      67, 65, 63, 61, 59, 57, 55, 53, 51, 49, 47, 45, 43, 41, 39, 37, 35,
      33, 31] :=
  ⟨chainPoint_eq_findSome p workers har hst hw, utilTargets_eq⟩

/-- **C4 (witness)**: the greedy characterization instantiated at a concrete
parameter set (`totalArrivalRate = 100`, `serviceTime = 1/20`,
`workersPerServer = 5`). -/
theorem C4_witness :
    chainPoint ⟨100, 1/20, 3, 5, 100, 50, 10, 50, none, none⟩ 5 =
      utilTargets.findSome?
        (fun targetUtil =>
          (chainTry ⟨100, 1/20, 3, 5, 100, 50, 10, 50, none, none⟩ 5
            targetUtil).map
            (chainRecordOf ⟨100, 1/20, 3, 5, 100, 50, 10, 50, none, none⟩ 5)) ∧
    utilTargets = [95, 93, 91, 89, 87, 85, 83, 81, 79, 77, 75, 73, 71, 69,
      67, 65, 63, 61, 59, 57, 55, 53, 51, 49, 47, 45, 43, 41, 39, 37, 35,
      33, 31] :=
  C4_optimization_chain_greedy ⟨100, 1/20, 3, 5, 100, 50, 10, 50, none, none⟩
    5 (by norm_num) (by norm_num) (by norm_num)

/-- **C10**: every record emitted by the optimization chain satisfies, by
construction: the recorded wait time meets `maxWaitTimeMs`; the feasible
utilization is positive; the server count lies in `[1, 10000]`; the
per-server system is stable
(`totalArrivalRate / minServersRequired * serviceTime < workersPerServer`);
the recorded delay probability meets the SLA; the cost is
`costPerWorker * servers * workers + perServerOverhead * servers`; and every
recorded field is a finite rational by construction of the embedding. -/
theorem C10_chain_record_invariants (p : FleetParams) (workers : ℤ)
    (r : ChainRecord) (har : 0 < p.totalArrivalRate)
    (hst : 0 < p.serviceTime) (hw : 1 ≤ workers)
    (h : chainPoint p workers = some r) :
    r.workersPerServer = workers ∧
    r.waitTimeAtOptimal ≤ p.maxWaitTimeMs ∧
    0 < r.maxFeasibleUtilization ∧
    1 ≤ r.minServersRequired ∧ r.minServersRequired ≤ 10000 ∧
    p.totalArrivalRate / (r.minServersRequired : ℚ) * p.serviceTime <
      (r.workersPerServer : ℚ) ∧
    erlangC workers
        (p.totalArrivalRate / (r.minServersRequired : ℚ) * p.serviceTime) *
        100 ≤ p.maxProbabilityDelay ∧
    r.totalCost = p.costPerWorker * (r.minServersRequired : ℚ) *
      (r.workersPerServer : ℚ) +
      p.perServerOverhead * (r.minServersRequired : ℚ) ∧
    r.totalWorkers = r.workersPerServer * r.minServersRequired := by
  rw [chainPoint_eq_findSome p workers har hst hw, findSome?_map_comp] at h
  cases hfs : utilTargets.findSome? (chainTry p workers) with
  | none => rw [hfs] at h; cases h
  | some t =>
      rw [hfs] at h
      obtain ⟨util, srv, w⟩ := t
      obtain ⟨targetU, _, hu2⟩ := List.exists_of_findSome?_eq_some hfs
      obtain ⟨hs1, hs2, hstab, hutil, hwle, hprob⟩ := chainTry_some_inv hu2
      have hpos : (0 : ℚ) < util := chainTry_util_pos har hst hw hu2
      simp only [Option.map_some', Option.some.injEq] at h
      subst h
      exact ⟨rfl, hwle, hpos, hs1, hs2, hstab, hprob, rfl, rfl⟩

/-- **C10 (witness)**: at `totalArrivalRate = 19/20`, `serviceTime = 1`,
`workers = 1` the very first target utilization 95 is feasible
(`requiredServers = 1`, per-server load `19/20`, wait `19000` ms ≤ `20000`,
delay `95%` ≤ `95`), so the chain emits the record
`⟨1, 95, 1, 19000, 1, 60⟩`, and the invariants hold at it. -/
theorem C10_witness :
    (⟨1, 95, 1, 19000, 1, 60⟩ : ChainRecord).workersPerServer = 1 ∧
    (⟨1, 95, 1, 19000, 1, 60⟩ : ChainRecord).waitTimeAtOptimal ≤ 20000 ∧
    (0 : ℚ) < (⟨1, 95, 1, 19000, 1, 60⟩ : ChainRecord).maxFeasibleUtilization ∧
    1 ≤ (⟨1, 95, 1, 19000, 1, 60⟩ : ChainRecord).minServersRequired ∧
    (⟨1, 95, 1, 19000, 1, 60⟩ : ChainRecord).minServersRequired ≤ 10000 ∧
    (19 : ℚ)/20 /
        ((⟨1, 95, 1, 19000, 1, 60⟩ : ChainRecord).minServersRequired : ℚ) * 1 <
      ((⟨1, 95, 1, 19000, 1, 60⟩ : ChainRecord).workersPerServer : ℚ) ∧
    erlangC 1 ((19 : ℚ)/20 /
        ((⟨1, 95, 1, 19000, 1, 60⟩ : ChainRecord).minServersRequired : ℚ) * 1) *
        100 ≤ 95 ∧
    (⟨1, 95, 1, 19000, 1, 60⟩ : ChainRecord).totalCost =
      10 * ((⟨1, 95, 1, 19000, 1, 60⟩ : ChainRecord).minServersRequired : ℚ) *
        ((⟨1, 95, 1, 19000, 1, 60⟩ : ChainRecord).workersPerServer : ℚ) +
      50 * ((⟨1, 95, 1, 19000, 1, 60⟩ : ChainRecord).minServersRequired : ℚ) ∧
    (⟨1, 95, 1, 19000, 1, 60⟩ : ChainRecord).totalWorkers =
      (⟨1, 95, 1, 19000, 1, 60⟩ : ChainRecord).workersPerServer *
        (⟨1, 95, 1, 19000, 1, 60⟩ : ChainRecord).minServersRequired := by
  have h95 : chainTry ⟨19/20, 1, 1, 1, 20000, 95, 10, 50, some 1, some 1⟩ 1
      95 = some (95, 1, 19000) := by
    unfold chainTry totalTrafficIntensity calculateTrafficIntensity
    norm_num
    rw [show averageWaitingTime 1 (19/20) 1 = some 19 by
      norm_num [averageWaitingTime, erlangC, erlangTerm, erlangSum, factorial,
        List.range', Finset.sum_range_succ]]
    norm_num [erlangC, erlangTerm, erlangSum, factorial, List.range',
      Finset.sum_range_succ, calculateUtilization]
  have hpoint : chainPoint ⟨19/20, 1, 1, 1, 20000, 95, 10, 50, some 1, some 1⟩
      1 = some ⟨1, 95, 1, 19000, 1, 60⟩ := by
    rw [chainPoint_eq_findSome _ 1 (by norm_num) (by norm_num) (by norm_num),
      utilTargets_eq, List.findSome?_cons, h95]
    simp only [Option.map_some', Option.some.injEq, chainRecordOf]
    norm_num
  exact C10_chain_record_invariants
    ⟨19/20, 1, 1, 1, 20000, 95, 10, 50, some 1, some 1⟩ 1
    ⟨1, 95, 1, 19000, 1, 60⟩ (by norm_num) (by norm_num) (by norm_num) hpoint

/- ### ServerOptimizer: the per-configuration scorer -/

/-- Inputs of the `ServerOptimizer` component (arrival rate, service time and
the wait-time SLA as props; cost and search-bound state). -/
structure OptimParams where
  arrivalRate : ℚ
  serviceTime : ℚ
  maxWaitTimeMs : ℚ
  costPerWorker : ℚ
  costPerServer : ℚ
  maxServers : ℤ
  maxWorkersPerServer : ℤ

/-- One configuration pushed by the `ServerOptimizer` enumeration. -/
structure ServerConfig where
  numServers : ℤ
  workersPerServer : ℤ
  totalWorkers : ℤ
  totalCost : ℚ
  avgUtilization : ℚ
  waitTime : ℚ
  probabilityDelay : ℚ
  serverTrafficIntensity : ℚ
  efficiency : ℚ
  score : ℚ
deriving DecidableEq

/-- One `(numServers, workersPerServer)` evaluation inside the nested loops
of `ServerOptimizer`: `none` when the configuration is skipped by
`if (waitTime > maxWaitTimeSeconds) continue;` (`Infinity > b` holds for
every finite bound, so the unstable case is also skipped). -/
def mkServerConfig (q : OptimParams) (numServers workersPerServer : ℤ) :
    Option ServerConfig :=
  let serverTrafficIntensity :=
    calculateTrafficIntensity (q.arrivalRate / (numServers : ℚ)) q.serviceTime
  match averageWaitingTime workersPerServer serverTrafficIntensity
      q.serviceTime with
  | none => none
  | some w =>
      if q.maxWaitTimeMs / 1000 < w then none
      else
        some { numServers
               workersPerServer
               totalWorkers := numServers * workersPerServer
               totalCost := q.costPerServer * (numServers : ℚ) +
                 q.costPerWorker * ((numServers * workersPerServer : ℤ) : ℚ)
               avgUtilization :=
                 calculateUtilization workersPerServer serverTrafficIntensity
               waitTime := w * 1000
               probabilityDelay :=
                 erlangC workersPerServer serverTrafficIntensity * 100
               serverTrafficIntensity
               efficiency :=
                 calculateUtilization workersPerServer serverTrafficIntensity /
                   ((q.costPerServer * (numServers : ℚ) +
                     q.costPerWorker *
                       ((numServers * workersPerServer : ℤ) : ℚ)) / 100)
               score := 0 }

/-- The nested enumeration `for numServers = 1..maxServers`,
`for workersPerServer = max(1, ⌈A_server⌉ + 1)..maxWorkersPerServer`,
keeping the SLA-satisfying configurations. -/
def configurations (q : OptimParams) : List ServerConfig :=
  (intRange 1 q.maxServers).flatMap fun numServers =>
    (intRange
      (max 1 (Int.ceil (calculateTrafficIntensity
        (q.arrivalRate / (numServers : ℚ)) q.serviceTime) + 1))
      q.maxWorkersPerServer).filterMap fun workersPerServer =>
        mkServerConfig q numServers workersPerServer

/-- The four objective weightings of the scorer. -/
inductive OptimizationGoal
  | cost
  | balanced
  | performanceMax
  | efficiencyMax

/-- The weighted score of one configuration, given the maxima used for
normalization. -/
def scoreOf (q : OptimParams) (goal : OptimizationGoal)
    (maxCost maxEfficiency : ℚ) (c : ServerConfig) : ℚ :=
  match goal with
  | .cost => (1 - c.totalCost / maxCost) * (7/10) +
      c.avgUtilization / 100 * (3/10)
  | .performanceMax => (1 - c.waitTime / q.maxWaitTimeMs) * (6/10) +
      c.avgUtilization / 100 * (4/10)
  | .balanced => (1 - c.totalCost / maxCost) * (4/10) +
      (1 - c.waitTime / q.maxWaitTimeMs) * (3/10) +
      c.avgUtilization / 100 * (3/10)
  | .efficiencyMax => c.efficiency / maxEfficiency

/-- Embedding of `scoredConfigurations`: the early return
`if (configurations.length === 0) return [];`, then scoring against the
maxima (`Math.max(...)` over the nonempty list) and the stable descending
sort by score. -/
def scoredConfigurations (q : OptimParams) (goal : OptimizationGoal) :
    List ServerConfig :=
  if configurations q = [] then []
  else
    let maxCost := match (configurations q).map (fun c => c.totalCost) with
      | [] => 0
      | c :: cs => cs.foldl max c
    let maxEfficiency :=
      match (configurations q).map (fun c => c.efficiency) with
      | [] => 0
      | c :: cs => cs.foldl max c
    ((configurations q).map
      (fun c => { c with score := scoreOf q goal maxCost maxEfficiency c }))
      |>.mergeSort (fun a b => decide (b.score ≤ a.score))

/-- `optimalConfig = scoredConfigurations[0]`: absent when the list is
empty. -/
def optimalConfig (q : OptimParams) (goal : OptimizationGoal) :
    Option ServerConfig :=
  (scoredConfigurations q goal).head?

theorem chainLoop_all_none (p : FleetParams) (workers : ℤ) :
    ∀ (L : List ℚ) (st : ℚ × Option ℤ × Option ℚ),
    (∀ u ∈ L, chainTry p workers u = none) → chainLoop p workers L st = st := by
  intro L
  induction L with
  | nil => intro st _; rfl
  | cons a rest ih =>
      intro st hall
      rw [chainLoop, hall a (by simp)]
      exact ih st fun u hu => hall u (by simp [hu])

theorem flatMap_eq_nil_of {α β : Type} (f : α → List β) (l : List α)
    (h : ∀ a ∈ l, f a = []) : l.flatMap f = [] := by
  induction l with
  | nil => rfl
  | cons a t ih =>
      rw [List.flatMap_cons, h a (by simp)]
      exact ih fun b hb => h b (by simp [hb])

theorem chainTry_none_of_large {p : FleetParams} {workers : ℤ} {u : ℚ}
    (h : 10000 <
      Int.ceil (totalTrafficIntensity p * 100 / (u * (workers : ℚ)))) :
    chainTry p workers u = none := by
  simp only [chainTry]
  rw [if_pos (Or.inr h)]

/-- **C8**: if no candidate configuration is feasible, both optimizers report
an explicit empty result: the optimization chain returns the empty list and
the scorer returns no configurations, an empty scored list, and an absent
recommended optimum — never a crash (all embedded functions are total) and
never a fabricated record (`NaN` has no representation in the exact-rational
embedding; the non-finite cases are the explicitly skipped `none` branches). -/
theorem C8_infeasible_empty (p : FleetParams) (q : OptimParams)
    (goal : OptimizationGoal)
    (hchain : ∀ w ∈ workersToTest p, ∀ u ∈ utilTargets,
      chainTry p w u = none)
    (hscorer : ∀ ns ∈ intRange 1 q.maxServers,
      ∀ wps ∈ intRange
        (max 1 (Int.ceil (calculateTrafficIntensity
          (q.arrivalRate / (ns : ℚ)) q.serviceTime) + 1))
        q.maxWorkersPerServer,
      mkServerConfig q ns wps = none) :
    optimizationChainData p = [] ∧ configurations q = [] ∧
    scoredConfigurations q goal = [] ∧ optimalConfig q goal = none := by
  have hcp : ∀ w ∈ workersToTest p, chainPoint p w = none := by
    intro w hw
    unfold chainPoint
    rw [chainLoop_all_none p w utilTargets (0, none, none) (hchain w hw)]
  have hchaindata : optimizationChainData p = [] := by
    unfold optimizationChainData
    split
    · rw [List.filterMap_eq_nil]
      exact hcp
    · rfl
  have hconf : configurations q = [] := by
    unfold configurations
    apply flatMap_eq_nil_of
    intro ns hns
    rw [List.filterMap_eq_nil]
    exact hscorer ns hns
  have hscored : scoredConfigurations q goal = [] := by
    unfold scoredConfigurations
    rw [if_pos hconf]
  refine ⟨hchaindata, hconf, hscored, ?_⟩
  unfold optimalConfig
  rw [hscored]
  rfl

/-- **C8 (witness)**: for the chain, `totalArrivalRate = 100000` with
`serviceTime = 1` and a single candidate worker count 1 makes every target
utilization demand more than 10000 servers, so every candidate is skipped;
for the scorer, `arrivalRate = 100`, `maxServers = 1`,
`maxWorkersPerServer = 20` makes the inner worker range `[101, 20]` empty.
Both optimizers report the explicit empty outcome. -/
theorem C8_witness :
    optimizationChainData ⟨100000, 1, 1, 1, 1, 0, 1, 1, some 1, some 1⟩ = [] ∧
    configurations ⟨100, 1, 1000, 10, 50, 1, 20⟩ = [] ∧
    scoredConfigurations ⟨100, 1, 1000, 10, 50, 1, 20⟩
      OptimizationGoal.balanced = [] ∧
    optimalConfig ⟨100, 1, 1000, 10, 50, 1, 20⟩
      OptimizationGoal.balanced = none := by
  apply C8_infeasible_empty
  · intro w hw u hu
    have hwt : workersToTest ⟨100000, 1, 1, 1, 1, 0, 1, 1, some 1, some 1⟩ =
        [1] := by
      norm_num [workersToTest, stepRange, show List.range 1 = [0] from rfl,
        show ([1, 1, 1] : List ℤ).dedup = [1] from by decide,
        List.mergeSort_singleton]
    rw [hwt] at hw
    have hw1 : w = 1 := by simpa using hw
    subst hw1
    have hb : (30 : ℚ) ≤ u ∧ u ≤ 95 := by
      rw [utilTargets_eq] at hu
      fin_cases hu <;> norm_num
    apply chainTry_none_of_large
    rw [Int.lt_ceil]
    have htti : totalTrafficIntensity
        ⟨100000, 1, 1, 1, 1, 0, 1, 1, some 1, some 1⟩ = 100000 := by
      norm_num [totalTrafficIntensity, calculateTrafficIntensity]
    rw [htti]
    push_cast
    rw [lt_div_iff (by nlinarith [hb.1])]
    nlinarith [hb.2]
  · intro ns hns wps hwps
    have h1 : intRange 1 (⟨100, 1, 1000, 10, 50, 1, 20⟩ :
        OptimParams).maxServers = [(1 : ℤ)] := rfl
    rw [h1] at hns
    have hns1 : ns = 1 := by simpa using hns
    subst hns1
    exfalso
    have h2 : (max 1 (Int.ceil (calculateTrafficIntensity
        ((⟨100, 1, 1000, 10, 50, 1, 20⟩ : OptimParams).arrivalRate /
          ((1 : ℤ) : ℚ))
        (⟨100, 1, 1000, 10, 50, 1, 20⟩ : OptimParams).serviceTime) + 1)) =
        (101 : ℤ) := by
      norm_num [calculateTrafficIntensity]
    rw [h2] at hwps
    have h3 : intRange 101
        (⟨100, 1, 1000, 10, 50, 1, 20⟩ : OptimParams).maxWorkersPerServer =
        [] := rfl
    rw [h3] at hwps
    simp at hwps
